import Mathlib

/-!
# Dake — verification of the distributed-build runtime against its specification

A shallow embedding of the parts of the Dake source that the verified claims
concern, together with proofs settling each claim.

Conventions of the embedding:
* Rust `String` / `PathBuf` are modelled as Lean `String`; byte buffers as
  `List Nat`.
* `u64` counters are modelled as `Nat` reduced modulo `2 ^ 64` wherever the
  source performs `u64` arithmetic.
* `HashMap` / `HashSet` are modelled as association lists / duplicate-free
  lists with lookup-by-key semantics.
* Fallible operations return `Option`; async control flow is modelled by
  explicit environments (which branch each `await` resolved to) or by a
  step relation on a state type.
* Only TCP socket addresses appear in the embedded claims, so the
  `SocketAddr::Unix` variant of `network::SocketAddr` is omitted; its
  `Display` prints a TCP address as `ip:port`.
-/

namespace Dake

/-! ## Core data model (src/process_id.rs, src/network/socket.rs) -/

/-- An IPv4 address (`std::net::IpAddr`, V4 case — the only case the claims
exercise). -/
structure IpAddr where
  oct0 : Nat
  oct1 : Nat
  oct2 : Nat
  oct3 : Nat
deriving DecidableEq, Repr

/-- `Display` for `IpAddr`: dotted-quad form. -/
def IpAddr.display (i : IpAddr) : String :=
  toString i.oct0 ++ "." ++ toString i.oct1 ++ "." ++ toString i.oct2 ++ "." ++ toString i.oct3

/-- `network::SocketAddr`, TCP variant: an (ip, port) pair. -/
structure SocketAddr where
  ip : IpAddr
  port : Nat
deriving DecidableEq, Repr

/-- `Display for SocketAddr` (src/src/network/socket.rs): a TCP address is
printed `ip:port`. -/
def SocketAddr.display (s : SocketAddr) : String :=
  s.ip.display ++ ":" ++ toString s.port

/-- `ProjectId` (src/src/process_id.rs): socket of the original caller plus
the working directory of the caller. -/
structure ProjectId where
  sock : SocketAddr
  path : String
deriving DecidableEq, Repr

/-- `ProcessId` (src/src/process_id.rs): numeric id within a project plus the
`ProjectId`. -/
structure ProcessId where
  id : Nat
  project_id : ProjectId
deriving DecidableEq, Repr

/-- `ProcessId::sock` returns the project socket. -/
def ProcessId.sock (p : ProcessId) : SocketAddr := p.project_id.sock

/-- `ProcessId::path` returns the project path. -/
def ProcessId.path (p : ProcessId) : String := p.project_id.path

/-! ## Constants (src/src/constants.rs) -/

def INITIAL_PROCESS_ID : Nat := 1

def CHANNEL_SIZE : Nat := 100

/-- The modulus of `u64` arithmetic. -/
def U64_MOD : Nat := 2 ^ 64

/-! ## Fresh-id allocation (src/src/daemon/memory/state.rs, `State::get_fresh_id`)

The daemon state's `id_database : HashMap<ProjectId, u64>` is modelled as an
association list. -/

/-- Association-list model of `HashMap<ProjectId, u64>`. -/
abbrev IdDatabase := List (ProjectId × Nat)

/-- `HashMap::get` on the id database. -/
def dbLookup : IdDatabase → ProjectId → Option Nat
  | [], _ => none
  | (q, w) :: t, p => if q = p then some w else dbLookup t p

/-- `HashMap` insertion (replace the binding of the key if present). -/
def dbInsert : IdDatabase → ProjectId → Nat → IdDatabase
  | [], p, v => [(p, v)]
  | (q, w) :: t, p, v => if q = p then (p, v) :: t else (q, w) :: dbInsert t p v

/-- `State::get_fresh_id`:
`id_database.entry(project_id).and_modify(|e| *e += 1).or_insert(INITIAL_PROCESS_ID + 1)`
followed by `let id = *entry - 1`.  `u64` increment and decrement are taken
modulo `2 ^ 64`. -/
def get_fresh_id (db : IdDatabase) (project_id : ProjectId) : Nat × IdDatabase :=
  match dbLookup db project_id with
  | some e =>
      let entry := (e + 1) % U64_MOD
      ((entry + (U64_MOD - 1)) % U64_MOD, dbInsert db project_id entry)
  | none =>
      let entry := INITIAL_PROCESS_ID + 1
      ((entry + (U64_MOD - 1)) % U64_MOD, dbInsert db project_id entry)

/-- `n` consecutive `get_fresh_id` calls for one project, returning the list
of allocated ids and the final database. -/
def allocate : Nat → IdDatabase → ProjectId → List Nat × IdDatabase
  | 0, db, _ => ([], db)
  | n + 1, db, p =>
      let r := get_fresh_id db p
      let rest := allocate n r.2 p
      (r.1 :: rest.1, rest.2)

theorem dbLookup_dbInsert (db : IdDatabase) (p : ProjectId) (v : Nat) :
    dbLookup (dbInsert db p v) p = some v := by
  induction db with
  | nil => simp [dbInsert, dbLookup]
  | cons h t ih =>
      obtain ⟨q, w⟩ := h
      by_cases hq : q = p
      · simp [dbInsert, hq, dbLookup]
      · simp [dbInsert, hq, dbLookup, ih]

theorem allocate_of_lookup (n : Nat) (p : ProjectId) :
    ∀ (db : IdDatabase) (c : Nat), dbLookup db p = some c →
      1 ≤ c → c + n < U64_MOD → (allocate n db p).1 = List.range' c n := by
  induction n with
  | zero => intro db c _ _ _; simp [allocate]
  | succ n ih =>
      intro db c hdb hc hlt
      have hcU : c + 1 < U64_MOD := by omega
      have hmod : (c + 1) % U64_MOD = c + 1 := Nat.mod_eq_of_lt hcU
      have hid : ((c + 1) % U64_MOD + (U64_MOD - 1)) % U64_MOD = c := by
        rw [hmod]
        have : c + 1 + (U64_MOD - 1) = c + U64_MOD := by
          have : 1 ≤ U64_MOD := by norm_num [U64_MOD]
          omega
        rw [this, Nat.add_mod_right]
        exact Nat.mod_eq_of_lt (by omega)
      have hstep : get_fresh_id db p =
          (c, dbInsert db p ((c + 1) % U64_MOD)) := by
        simp [get_fresh_id, hdb, hid]
      have hnext : dbLookup (dbInsert db p ((c + 1) % U64_MOD)) p = some (c + 1) := by
        rw [hmod]; exact dbLookup_dbInsert db p (c + 1)
      have := ih (dbInsert db p ((c + 1) % U64_MOD)) (c + 1) hnext (by omega) (by omega)
      simp only [allocate, hstep, this]
      rw [List.range'_succ]



theorem chain'_lt_range' (s n : Nat) : List.Chain' (· < ·) (List.range' s n) := by
  cases n with
  | zero => simp
  | succ n =>
      rw [List.range'_succ]
      exact List.chain_lt_range' s n (by norm_num)

/-- C3: for every `ProjectId`, a sequence of `n` successful fresh-id
allocations through `State::get_fresh_id` (starting from a database with no
entry for the project) returns exactly the strictly increasing sequence
`1, 2, ..., n`; in particular no call returns `0`, id `0` staying reserved
for process-less messages. -/
theorem get_fresh_id_strictly_increasing (p : ProjectId) (n : Nat) (h : n + 1 < U64_MOD) :
    (allocate n [] p).1 = List.range' 1 n ∧
    List.Chain' (· < ·) (allocate n [] p).1 ∧
    0 ∉ (allocate n [] p).1 := by
  have hids : (allocate n [] p).1 = List.range' 1 n := by
    cases n with
    | zero => simp [allocate]
    | succ n =>
        have hstep : get_fresh_id [] p = (1, [(p, 2)]) := by
          simp [get_fresh_id, dbLookup, dbInsert, INITIAL_PROCESS_ID]
          norm_num [U64_MOD]
        have hrest := allocate_of_lookup n p [(p, 2)] 2
          (by simp [dbLookup]) (by norm_num) (by omega)
        simp only [allocate, hstep, hrest]
        rw [List.range'_succ]
  refine ⟨hids, ?_, ?_⟩
  · rw [hids]; exact chain'_lt_range' 1 n
  · rw [hids, List.mem_range'_1]; omega

/-- Witness for C3 at `n = 3`. -/
theorem get_fresh_id_strictly_increasing_witness :
    (3 + 1 < U64_MOD) ∧
    ((allocate 3 [] ⟨⟨⟨10, 0, 0, 1⟩, 1808⟩, "/proj"⟩).1 = List.range' 1 3 ∧
     List.Chain' (· < ·) (allocate 3 [] ⟨⟨⟨10, 0, 0, 1⟩, 1808⟩, "/proj"⟩).1 ∧
     0 ∉ (allocate 3 [] ⟨⟨⟨10, 0, 0, 1⟩, 1808⟩, "/proj"⟩).1) :=
  ⟨by norm_num [U64_MOD],
   get_fresh_id_strictly_increasing ⟨⟨⟨10, 0, 0, 1⟩, 1808⟩, "/proj"⟩ 3 (by norm_num [U64_MOD])⟩



/-! ## Notifications (src/src/daemon/notif.rs) -/

/-- `handlers::OutputFile`. -/
inductive OutputFile
  | Stdout
  | Stderr
deriving DecidableEq, Repr

/-- `daemon::Notif`: notification broadcast between tasks via the notifier hub. -/
inductive Notif
  | Done
  | Log (output : OutputFile) (log : String)
  | Error (exit_code : Int) (guilty_node : SocketAddr)
  | TargetUnlock (target : String)
deriving DecidableEq, Repr

/-! ## Target locks (src/src/daemon/memory/state.rs)

`target_locks : HashSet<(ProjectId, String)>` is modelled as a duplicate-free
list.  `lock_target` loops: atomically `insert` the pair and read whether it
was absent (`was_free`); if it was already present, subscribe to the
project's process-less channel (`ProcessId { id: 0, project_id }`), wait for
a `TargetUnlock` notification whose target equals the requested one, and
retry.  `unlock_target` removes the pair and broadcasts `TargetUnlock` on the
process-less channel. -/

abbrev TargetLocks := List (ProjectId × String)

/-- `HashSet::insert`: returns `true` iff the element was absent (Rust's
return value), together with the updated set. -/
def locksInsert (s : TargetLocks) (k : ProjectId × String) : Bool × TargetLocks :=
  if k ∈ s then (false, s) else (true, k :: s)

/-- One atomic iteration of `State::lock_target`'s outer loop: the
`locks.insert((project_id, target))` step, yielding `was_free` and the
updated lock set.  `lock_target` returns exactly when this yields `true`. -/
def lock_target_attempt (locks : TargetLocks) (project_id : ProjectId) (target : String) :
    Bool × TargetLocks :=
  locksInsert locks (project_id, target)

/-- The guard of `lock_target`'s inner wait loop:
`matches!(notif, Notif::TargetUnlock { target: target_unlocked } if &target == target_unlocked)`.
Only notifications passing this guard break the wait and cause a retry. -/
def unlock_matches (target : String) (n : Notif) : Bool :=
  match n with
  | Notif.TargetUnlock target_unlocked => target = target_unlocked
  | _ => false

/-- `State::unlock_target`: remove the pair from the lock set, then broadcast
`Notif::TargetUnlock { target }` on the process-less channel
`ProcessId { id: 0, project_id }`.  Returns the updated set and the
(channel key, notification) pair that is broadcast. -/
def unlock_target (locks : TargetLocks) (project_id : ProjectId) (target : String) :
    TargetLocks × ProcessId × Notif :=
  (locks.erase (project_id, target),
   ⟨0, project_id⟩,
   Notif.TargetUnlock target)

/-! A small transition system over the daemon's lock state.  Each lock-holding
task (identified by a `Nat`) performs the atomic `lock_target_attempt`
(succeeding only when `was_free`), may observe a failed attempt (in which case
it waits on the process-less channel and changes nothing), and releases with
`unlock_target` only what it holds — exactly the discipline of
`execute_make`, the only caller of the two functions. -/

structure LockSysState where
  locks : TargetLocks
  holder : List (Nat × ProjectId × String)
deriving DecidableEq, Repr

/-- Atomic transitions of the target-lock subsystem. -/
inductive LockStep : LockSysState → LockSysState → Prop
  | acquire (i : Nat) (p : ProjectId) (t : String) (s : LockSysState) :
      (lock_target_attempt s.locks p t).1 = true →
      (∀ k, (i, k) ∉ s.holder) →
      LockStep s ⟨(lock_target_attempt s.locks p t).2, (i, p, t) :: s.holder⟩
  | blocked (i : Nat) (p : ProjectId) (t : String) (s : LockSysState) :
      (lock_target_attempt s.locks p t).1 = false →
      LockStep s s
  | release (i : Nat) (p : ProjectId) (t : String) (s : LockSysState) :
      (i, p, t) ∈ s.holder →
      LockStep s ⟨(unlock_target s.locks p t).1, s.holder.erase (i, p, t)⟩

/-- States reachable from the empty initial state (fresh daemon). -/
def LockReachable (s : LockSysState) : Prop :=
  Relation.ReflTransGen LockStep ⟨[], []⟩ s


/-- The inductive invariant of the lock subsystem: every held key is in the
lock set, no two tasks hold the same key, both the lock set and the holder
table are duplicate-free. -/
def LockInv (s : LockSysState) : Prop :=
  (∀ i p t, (i, p, t) ∈ s.holder → (p, t) ∈ s.locks) ∧
  (∀ i j p t, (i, p, t) ∈ s.holder → (j, p, t) ∈ s.holder → i = j) ∧
  s.locks.Nodup ∧
  s.holder.Nodup

theorem lockInv_init : LockInv ⟨[], []⟩ := by
  refine ⟨?_, ?_, ?_, ?_⟩ <;> simp

theorem lockInv_step {s s' : LockSysState} (hs : LockInv s) (h : LockStep s s') :
    LockInv s' := by
  obtain ⟨hmem, huniq, hnd, hndh⟩ := hs
  cases h with
  | acquire i p t s hfree hnot =>
      have hfreeMem : (p, t) ∉ s.locks := by
        by_contra hmem'
        simp [lock_target_attempt, locksInsert, hmem'] at hfree
      have hlocks' : (lock_target_attempt s.locks p t).2 = (p, t) :: s.locks := by
        simp [lock_target_attempt, locksInsert, hfreeMem]
      rw [hlocks']
      refine ⟨?_, ?_, ?_, ?_⟩
      · intro i' p' t' hh
        simp only [List.mem_cons, Prod.mk.injEq] at hh ⊢
        rcases hh with ⟨e1, e2, e3⟩ | h2
        · left; exact ⟨e2, e3⟩
        · right; exact hmem i' p' t' h2
      · intro i' j p' t' h1 h2
        simp only [List.mem_cons, Prod.mk.injEq] at h1 h2
        rcases h1 with ⟨e1, e2, e3⟩ | h1 <;> rcases h2 with ⟨f1, f2, f3⟩ | h2
        · rw [e1, f1]
        · exfalso
          subst e2; subst e3
          exact hfreeMem (hmem j p' t' h2)
        · exfalso
          subst f2; subst f3
          exact hfreeMem (hmem i' p' t' h1)
        · exact huniq i' j p' t' h1 h2
      · exact List.Nodup.cons hfreeMem hnd
      · exact List.Nodup.cons (hnot (p, t)) hndh
  | blocked i p t s hfail => exact ⟨hmem, huniq, hnd, hndh⟩
  | release i p t s hheld =>
      simp only [unlock_target]
      refine ⟨?_, ?_, ?_, ?_⟩
      · intro i' p' t' hh
        have hne : ((i', p', t') : Nat × ProjectId × String) ≠ (i, p, t) :=
          ((List.Nodup.mem_erase_iff hndh).1 hh).1
        have hh' : (i', p', t') ∈ s.holder := List.mem_of_mem_erase hh
        have hkey : ((p', t') : ProjectId × String) ≠ (p, t) := by
          intro hk
          have hp : p' = p := congrArg Prod.fst hk
          have ht : t' = t := congrArg Prod.snd hk
          have : i' = i := huniq i' i p' t' hh' (by rw [hp, ht]; exact hheld)
          exact hne (by rw [this, hp, ht])
        exact (List.mem_erase_of_ne hkey).2 (hmem i' p' t' hh')
      · intro i' j p' t' h1 h2
        exact huniq i' j p' t' (List.mem_of_mem_erase h1) (List.mem_of_mem_erase h2)
      · exact List.Nodup.erase _ hnd
      · exact List.Nodup.erase _ hndh

theorem lockInv_reachable {s : LockSysState} (h : LockReachable s) : LockInv s := by
  induction h with
  | refl => exact lockInv_init
  | tail _ hstep ih => exact lockInv_step ih hstep

/-- C4: mutual exclusion of target locks.  In every state reachable by the
atomic lock/unlock transitions, at most one task holds a given
`(project, target)` pair; `lock_target`'s atomic attempt succeeds exactly
when the pair was absent from the set, and on success the pair is inserted;
a blocked `lock_target` retries only on notifications passing
`unlock_matches`, which accepts exactly `TargetUnlock` with the identical
target; and `unlock_target` removes the pair from the set and broadcasts
`TargetUnlock { target }` on the project's process-less (id 0) channel. -/
theorem target_lock_mutual_exclusion (s : LockSysState) (hs : LockReachable s) :
    (∀ i j p t, (i, p, t) ∈ s.holder → (j, p, t) ∈ s.holder → i = j) ∧
    (∀ p t, (lock_target_attempt s.locks p t).1 = true ↔ (p, t) ∉ s.locks) ∧
    (∀ p t, (lock_target_attempt s.locks p t).1 = true →
      (p, t) ∈ (lock_target_attempt s.locks p t).2) ∧
    (∀ t n, unlock_matches t n = true ↔ n = Notif.TargetUnlock t) ∧
    (∀ p t, (p, t) ∉ (unlock_target s.locks p t).1 ∧
      (unlock_target s.locks p t).2 = (⟨0, p⟩, Notif.TargetUnlock t)) := by
  obtain ⟨hmem, huniq, hnd, hndh⟩ := lockInv_reachable hs
  refine ⟨huniq, ?_, ?_, ?_, ?_⟩
  · intro p t
    constructor
    · intro h hmem'
      simp [lock_target_attempt, locksInsert, hmem'] at h
    · intro hmem'
      simp [lock_target_attempt, locksInsert, hmem']
  · intro p t h
    have hmem' : (p, t) ∉ s.locks := by
      by_contra hc
      simp [lock_target_attempt, locksInsert, hc] at h
    simp [lock_target_attempt, locksInsert, hmem']
  · intro t n
    cases n with
    | TargetUnlock u =>
        constructor
        · intro h
          simp only [unlock_matches, decide_eq_true_eq] at h
          rw [h]
        · intro h
          injection h with h'
          simp [unlock_matches, h']
    | Done => simp [unlock_matches]
    | Log o l => simp [unlock_matches]
    | Error c g => simp [unlock_matches]
  · intro p t
    exact ⟨List.Nodup.not_mem_erase hnd, rfl⟩

def lockWitnessProject : ProjectId := ⟨⟨⟨10, 0, 0, 1⟩, 1808⟩, "/proj"⟩

def lockWitnessState : LockSysState :=
  ⟨[(lockWitnessProject, "a.o")], [(0, lockWitnessProject, "a.o")]⟩

theorem lockWitnessState_reachable : LockReachable lockWitnessState := by
  have h : LockStep ⟨[], []⟩
      ⟨(lock_target_attempt [] lockWitnessProject "a.o").2,
       (0, lockWitnessProject, "a.o") :: ([] : List (Nat × ProjectId × String))⟩ :=
    LockStep.acquire 0 lockWitnessProject "a.o" ⟨[], []⟩
      (by simp [lock_target_attempt, locksInsert]) (by simp)
  have he : (lock_target_attempt ([] : TargetLocks) lockWitnessProject "a.o").2 =
      [(lockWitnessProject, "a.o")] := by
    simp [lock_target_attempt, locksInsert]
  rw [he] at h
  exact Relation.ReflTransGen.single h

/-- Witness for C4: the conclusions at a concrete reachable state holding one
lock. -/
theorem target_lock_mutual_exclusion_witness :
    LockReachable lockWitnessState ∧
    ((∀ i j p t, (i, p, t) ∈ lockWitnessState.holder →
       (j, p, t) ∈ lockWitnessState.holder → i = j) ∧
     (∀ p t, (lock_target_attempt lockWitnessState.locks p t).1 = true ↔
       (p, t) ∉ lockWitnessState.locks) ∧
     (∀ p t, (lock_target_attempt lockWitnessState.locks p t).1 = true →
       (p, t) ∈ (lock_target_attempt lockWitnessState.locks p t).2) ∧
     (∀ t n, unlock_matches t n = true ↔ n = Notif.TargetUnlock t) ∧
     (∀ p t, (p, t) ∉ (unlock_target lockWitnessState.locks p t).1 ∧
       (unlock_target lockWitnessState.locks p t).2 = (⟨0, p⟩, Notif.TargetUnlock t))) :=
  ⟨lockWitnessState_reachable,
   target_lock_mutual_exclusion lockWitnessState lockWitnessState_reachable⟩

/-! ## Local make supervision (src/src/daemon/operations/process_make.rs)

`execute_make` is embedded as a function of an environment recording how each
fallible step and the completion race resolve.  Control-plane mutex
acquisitions (`lock!`) are modelled as succeeding.  The claims about it
concern its return value and the final contents of the target-lock set. -/

/-- `std::process::ExitStatus`: `code` is `none` when the process was
terminated by a signal; `success()` holds exactly when the exit code is 0. -/
structure ExitStatus where
  code : Option Int
deriving DecidableEq, Repr

def ExitStatus.success (s : ExitStatus) : Bool := s.code = some 0

/-- Resolution of `execute_make`'s fallible steps and of its completion race. -/
structure MakeEnv where
  /-- `RemoteMakefile::guess_path` finds a makefile in the directory. -/
  guessPathOk : Bool
  /-- `read_to_string` on the makefile succeeds. -/
  readOk : Bool
  /-- `state.read_process_data(&pid)` yields the caller socket. -/
  callerSock : Option SocketAddr
  /-- `Command::spawn` succeeds. -/
  spawnOk : Bool
  /-- the `select!` resolves with a `Notif::Done` before the child exits. -/
  doneBeforeExit : Bool
  /-- exit status of the child when it runs to completion. -/
  status : ExitStatus
deriving Repr

/-- Result of `execute_make`: `Ok(Some(status))`, `Ok(None)` (aborted on
`Done`), or `Err(_)`. -/
inductive MakeResult
  | ok (st : Option ExitStatus)
  | err
deriving DecidableEq, Repr

/-- `execute_make`, tracking the target-lock set.  With a target, the
per-project lock is taken first (`lock_target`, modelled by its eventual
successful insertion); the function then resolves the makefile path, reads
it, fetches the caller socket, spawns `make`, and races the child against
`Done` notifications, killing the child and returning `Ok(None)` on `Done`;
on normal completion it calls `unlock_target` before returning.  The second
component of the result is the lock set when the function returns. -/
def execute_make (env : MakeEnv) (locks : TargetLocks) (project_id : ProjectId)
    (target : Option String) : MakeResult × TargetLocks :=
  match target with
  | some t =>
      let locks1 := (lock_target_attempt locks project_id t).2
      if ¬env.guessPathOk then (MakeResult.err, locks1)
      else if ¬env.readOk then (MakeResult.err, locks1)
      else
        match env.callerSock with
        | none => (MakeResult.err, locks1)
        | some _ =>
            if ¬env.spawnOk then (MakeResult.err, locks1)
            else if env.doneBeforeExit then (MakeResult.ok none, locks1)
            else (MakeResult.ok (some env.status), (unlock_target locks1 project_id t).1)
  | none =>
      if ¬env.guessPathOk then (MakeResult.err, locks)
      else if ¬env.readOk then (MakeResult.err, locks)
      else
        match env.callerSock with
        | none => (MakeResult.err, locks)
        | some _ =>
            if ¬env.spawnOk then (MakeResult.err, locks)
            else if env.doneBeforeExit then (MakeResult.ok none, locks)
            else (MakeResult.ok (some env.status), locks)

/-- C5 (the code violates the claim): an `execute_make` invocation given a
target acquires the per-project target lock, but on the abort path — a `Done`
notification arrives, the make child is killed and the function returns
`Ok(None)` — the function returns with the target lock still in the lock
set; the lock is released only on the normal-completion path.  Evaluated at
a concrete failing input (all fallible steps succeed, `Done` wins the race):
the result is the abort result and the lock set still holds the pair, while
normal completion at the same input with the race resolved the other way
leaves the lock set empty. -/
theorem execute_make_abort_leaks_lock :
    execute_make
        ⟨true, true, some ⟨⟨10, 0, 0, 1⟩, 1808⟩, true, true, ⟨some 0⟩⟩
        [] ⟨⟨⟨10, 0, 0, 1⟩, 1808⟩, "/proj"⟩ (some "a.o") =
      (MakeResult.ok none, [(⟨⟨⟨10, 0, 0, 1⟩, 1808⟩, "/proj"⟩, "a.o")]) ∧
    execute_make
        ⟨true, true, some ⟨⟨10, 0, 0, 1⟩, 1808⟩, true, false, ⟨some 0⟩⟩
        [] ⟨⟨⟨10, 0, 0, 1⟩, 1808⟩, "/proj"⟩ (some "a.o") =
      (MakeResult.ok (some ⟨some 0⟩), []) := by
  constructor
  · simp [execute_make, lock_target_attempt, locksInsert]
  · simp [execute_make, lock_target_attempt, locksInsert, unlock_target]

/-! ## Artifact streaming (src/src/daemon/handlers/fetch_handler.rs, step 5)

The built file is modelled as a list of bytes.  Each loop iteration
allocates `let mut buf = vec![0; 8192]`, reads `n` bytes into its front
(`BufReader::read` returns `min 8192 remaining` here), breaks when `n == 0`,
and otherwise sends `FetcherMessage::Object(buf)` — the whole 8192-byte
buffer, not `buf[..n]`. -/

def CHUNK_SIZE : Nat := 8 * 1024

/-- The `loop` of `handle_fetch` step 5: the list of `Object` payloads sent
for a file with the given bytes. -/
def stream_file (bytes : List Nat) : List (List Nat) :=
  if h : bytes = [] then []
  else
    (bytes.take (min CHUNK_SIZE bytes.length) ++
      List.replicate (CHUNK_SIZE - min CHUNK_SIZE bytes.length) 0) ::
      stream_file (bytes.drop (min CHUNK_SIZE bytes.length))
termination_by bytes.length
decreasing_by
  have hlen : 0 < bytes.length := List.length_pos.mpr h
  simp only [List.length_drop, CHUNK_SIZE]
  omega

/-- C1 (the code violates the claim): for a built file of a single byte, the
streaming loop of `handle_fetch` sends one `Object` chunk of 8192 bytes —
the file byte followed by 8191 padding zeros — because it sends the whole
read buffer instead of its first `n` bytes.  The concatenation of the sent
payloads therefore differs from the file bytes; the final chunk is never
short. -/
theorem handle_fetch_stream_pads_final_chunk :
    stream_file [7] = [7 :: List.replicate 8191 0] ∧
    (stream_file [7]).flatten ≠ [7] := by
  have h1 : stream_file [7] = [7 :: List.replicate 8191 0] := by
    rw [stream_file]
    norm_num [CHUNK_SIZE]
    rw [stream_file]
    simp
  refine ⟨h1, ?_⟩
  rw [h1]
  intro hc
  have hlen := congrArg List.length hc
  simp only [List.flatten_cons, List.flatten_nil, List.append_nil, List.length_cons,
    List.length_replicate, List.length_nil] at hlen
  omega

/-! ## Messages (src/src/network/messages.rs) and the NewProcess handler
(src/src/daemon/handlers/new_process_handler.rs)

`new_process` is embedded as a function of an environment recording how
distribution, the notifier-hub lock, and each resolution of the supervision
loop's `select!` turn out.  Its value is the sequence of `ProcessMessage`s
written to the client stream, or `none` when the run never leaves the loop
(the select never resolves again). -/

/-- `ProcessMessage` (daemon → caller client). -/
inductive ProcessMessage
  | FreshId
  | StdoutLog (log : String)
  | StderrLog (log : String)
  | End (exit_code : Int)
deriving DecidableEq, Repr

/-- `DaemonMessage` — the variants the embedded claims touch. -/
inductive DaemonMessage
  | StdoutLog (log : String)
  | StderrLog (log : String)
  | MakeError (guilty_node : SocketAddr) (exit_code : Int)
  | Done
deriving DecidableEq, Repr

def ProcessMessage.isEnd : ProcessMessage → Bool
  | ProcessMessage.End _ => true
  | _ => false

/-- One resolution of the `select!` in `new_process`'s supervision loop:
either the local `make` future completes, or the notifier subscriber yields
a notification (or is closed). -/
inductive NewProcessEvent
  | makeDone (result : MakeResult)
  | notif (n : Notif)
  | notifClosed
deriving DecidableEq, Repr

/-- Environment of one `new_process` run. -/
structure NewProcessEnv where
  /-- `distribute` succeeds (all acks collected, none `Failure`). -/
  distributeOk : Bool
  /-- the `lock!(notifier_hub)` before subscribing succeeds. -/
  hubLockOk : Bool
  /-- display of the distribution error, when distribution fails. -/
  distributeErrMsg : String
  /-- successive resolutions of the supervision loop's `select!`. -/
  events : List NewProcessEvent
deriving Repr

/-- The supervision loop (step 4 of `new_process`): forwards `Log`
notifications as client `StdoutLog`/`StderrLog` messages, breaks with
`status.code().unwrap_or(1)` on local make completion, with `1` on an
aborted/failed make or a closed subscriber, with the received code on an
`Error` notification (after broadcasting `Done`), and ignores other
notifications.  Returns the forwarded messages and the break code (`none`
when the event list is exhausted: the select never resolves and the loop
never breaks). -/
def npLoop : List NewProcessEvent → List ProcessMessage × Option Int
  | [] => ([], none)
  | e :: rest =>
      match e with
      | NewProcessEvent.makeDone (MakeResult.ok (some st)) => ([], some (st.code.getD 1))
      | NewProcessEvent.makeDone (MakeResult.ok none) => ([], some 1)
      | NewProcessEvent.makeDone MakeResult.err => ([], some 1)
      | NewProcessEvent.notifClosed => ([], some 1)
      | NewProcessEvent.notif (Notif.Error c _) => ([], some c)
      | NewProcessEvent.notif (Notif.Log OutputFile.Stdout l) =>
          let r := npLoop rest
          (ProcessMessage.StdoutLog l :: r.1, r.2)
      | NewProcessEvent.notif (Notif.Log OutputFile.Stderr l) =>
          let r := npLoop rest
          (ProcessMessage.StderrLog l :: r.1, r.2)
      | NewProcessEvent.notif Notif.Done => npLoop rest
      | NewProcessEvent.notif (Notif.TargetUnlock _) => npLoop rest

/-- `new_process`: on distribution failure, write a user-visible
`StderrLog` then `End { 1 }` and return; if locking the notifier hub fails,
warn and return without writing anything; otherwise run the supervision
loop and append `End { exit_code }`.  The value is the list of
`ProcessMessage`s written on the client stream, `none` if the run never
terminates. -/
def new_process (env : NewProcessEnv) : Option (List ProcessMessage) :=
  if ¬env.distributeOk then
    some [ProcessMessage.StderrLog
            ("Dake failed to distribute makefile to remote hosts: " ++ env.distributeErrMsg),
          ProcessMessage.End 1]
  else if ¬env.hubLockOk then
    some []
  else
    match npLoop env.events with
    | (ms, some c) => some (ms ++ [ProcessMessage.End c])
    | (_, none) => none

/-- Counterexample to C2 as stated: a run of `new_process` whose
notifier-hub lock fails terminates (returns) without writing any `End`
message, so it is not the case that every terminating run writes exactly
one `End`. -/
theorem new_process_end_not_always_written :
    ¬ (∀ (env : NewProcessEnv) (msgs : List ProcessMessage),
        new_process env = some msgs → (msgs.filter ProcessMessage.isEnd).length = 1) := by
  intro h
  have := h ⟨true, false, "", []⟩ [] (by simp [new_process])
  simp at this

theorem npLoop_no_end (evs : List NewProcessEvent) :
    ∀ m ∈ (npLoop evs).1, ProcessMessage.isEnd m = false := by
  induction evs with
  | nil => simp [npLoop]
  | cons e rest ih =>
      cases e with
      | makeDone r =>
          cases r with
          | ok st => cases st <;> simp [npLoop]
          | err => simp [npLoop]
      | notifClosed => simp [npLoop]
      | notif n =>
          cases n with
          | Done => simpa [npLoop] using ih
          | TargetUnlock t => simpa [npLoop] using ih
          | Error c g => simp [npLoop]
          | Log o l =>
              cases o <;>
                · intro m hm
                  simp only [npLoop, List.mem_cons] at hm
                  rcases hm with hm | hm
                  · rw [hm]; rfl
                  · exact ih m hm

/-- C2 (amended): every terminating run of `new_process` that passes the
notifier-hub subscription step writes exactly one `End { exit_code }` to
the client, `End` comes after all forwarded `StdoutLog`/`StderrLog`
messages and is the last `ProcessMessage` of the run.  (The run whose
notifier-hub lock times out returns without writing an `End` — the
counterexample above.) -/
theorem new_process_exactly_one_end (env : NewProcessEnv) (msgs : List ProcessMessage)
    (hhub : env.hubLockOk = true) (hrun : new_process env = some msgs) :
    (msgs.filter ProcessMessage.isEnd).length = 1 ∧
    (∃ c, msgs.getLast? = some (ProcessMessage.End c)) ∧
    (∀ m ∈ msgs.dropLast, ProcessMessage.isEnd m = false) := by
  cases hd : env.distributeOk with
  | true =>
    simp only [new_process, hd, hhub, not_true_eq_false, if_false, Bool.not_true] at hrun
    rcases hl : npLoop env.events with ⟨ms, oc⟩
    rw [hl] at hrun
    cases oc with
    | none => simp at hrun
    | some c =>
        simp only [Option.some.injEq] at hrun
        subst hrun
        have hnoend := npLoop_no_end env.events
        rw [hl] at hnoend
        refine ⟨?_, ⟨c, ?_⟩, ?_⟩
        · rw [List.filter_append]
          have : ms.filter ProcessMessage.isEnd = [] := by
            rw [List.filter_eq_nil_iff]
            intro m hm
            simp [hnoend m hm]
          rw [this]
          rfl
        · rw [List.getLast?_concat]
        · intro m hm
          rw [List.dropLast_concat] at hm
          exact hnoend m hm
  | false =>
    simp only [new_process, hd, Bool.false_eq_true, not_false_eq_true, if_true,
      Option.some.injEq] at hrun
    subst hrun
    refine ⟨by rfl, ⟨1, by rfl⟩, by simp [ProcessMessage.isEnd]⟩

/-- Witness for C2 (amended), at a run whose local make succeeds with exit
code 0 after one forwarded log. -/
theorem new_process_exactly_one_end_witness :
    ((⟨true, true, "",
        [NewProcessEvent.notif (Notif.Log OutputFile.Stdout "hi"),
         NewProcessEvent.makeDone (MakeResult.ok (some ⟨some 0⟩))]⟩ :
      NewProcessEnv).hubLockOk = true) ∧
    (([ProcessMessage.StdoutLog "hi", ProcessMessage.End 0].filter
        ProcessMessage.isEnd).length = 1 ∧
     (∃ c, [ProcessMessage.StdoutLog "hi", ProcessMessage.End 0].getLast? =
        some (ProcessMessage.End c)) ∧
     (∀ m ∈ [ProcessMessage.StdoutLog "hi", ProcessMessage.End 0].dropLast,
        ProcessMessage.isEnd m = false)) :=
  ⟨rfl,
   new_process_exactly_one_end
     ⟨true, true, "",
      [NewProcessEvent.notif (Notif.Log OutputFile.Stdout "hi"),
       NewProcessEvent.makeDone (MakeResult.ok (some ⟨some 0⟩))]⟩
     [ProcessMessage.StdoutLog "hi", ProcessMessage.End 0]
     rfl (by simp [new_process, npLoop])⟩

/-! ## Signal-killed make in handle_fetch (src/src/daemon/handlers/fetch_handler.rs)

After `execute_make` returns `Ok(Some(status))`, `handle_fetch` computes
`exit_code = status.code().unwrap_or_else(|| { warn!(...); 0 })` and, when
`!status.success()`, sends `MakeError { guilty_node: self, exit_code }` to
the caller daemon.  `handle_error` on the caller daemon turns this into a
`Notif::Error` broadcast consumed by `new_process`'s supervision loop. -/

/-- The exit code `handle_fetch` derives from the make exit status:
`status.code().unwrap_or(0)`. -/
def fetch_reported_exit_code (st : ExitStatus) : Int := st.code.getD 0

/-- The `MakeError` message `handle_fetch` sends to the caller daemon when
make completed without success (`none` when make succeeded). -/
def fetch_make_report (daemon_sock : SocketAddr) (st : ExitStatus) : Option DaemonMessage :=
  if ¬st.success then
    some (DaemonMessage.MakeError daemon_sock (fetch_reported_exit_code st))
  else none

/-- `handle_error` (src/src/daemon/handlers/error_handler.rs): translate a
`MakeError { guilty_node, exit_code }` into the `Notif::Error` broadcast. -/
def handle_error_notif (guilty_node : SocketAddr) (exit_code : Int) : Notif :=
  Notif.Error exit_code guilty_node

/-- C10: when the make child spawned by `handle_fetch` terminates without an
exit code (killed by a signal), the failure is reported as
`MakeError { guilty_node = self, exit_code = 0 }`, and a `new_process`
supervision loop receiving the resulting `Error` notification adopts `0` as
the final exit code and writes `End { 0 }` to the client. -/
theorem signal_killed_fetch_reports_exit_zero (st : ExitStatus) (self : SocketAddr)
    (h : st.code = none) :
    fetch_reported_exit_code st = 0 ∧
    fetch_make_report self st = some (DaemonMessage.MakeError self 0) ∧
    new_process
        ⟨true, true, "",
         [NewProcessEvent.notif (handle_error_notif self (fetch_reported_exit_code st))]⟩ =
      some [ProcessMessage.End 0] := by
  have hcode : fetch_reported_exit_code st = 0 := by
    simp [fetch_reported_exit_code, h]
  have hsucc : st.success = false := by
    simp [ExitStatus.success, h]
  refine ⟨hcode, ?_, ?_⟩
  · simp [fetch_make_report, hsucc, hcode]
  · rw [hcode]
    simp [new_process, npLoop, handle_error_notif]

/-- Witness for C10 at a concrete signal-killed status. -/
theorem signal_killed_fetch_reports_exit_zero_witness :
    ((⟨none⟩ : ExitStatus).code = none) ∧
    (fetch_reported_exit_code ⟨none⟩ = 0 ∧
     fetch_make_report ⟨⟨10, 0, 0, 2⟩, 1808⟩ ⟨none⟩ =
       some (DaemonMessage.MakeError ⟨⟨10, 0, 0, 2⟩, 1808⟩ 0) ∧
     new_process
         ⟨true, true, "",
          [NewProcessEvent.notif
            (handle_error_notif ⟨⟨10, 0, 0, 2⟩, 1808⟩ (fetch_reported_exit_code ⟨none⟩))]⟩ =
       some [ProcessMessage.End 0]) :=
  ⟨rfl, signal_killed_fetch_reports_exit_zero ⟨none⟩ ⟨⟨10, 0, 0, 2⟩, 1808⟩ rfl⟩

/-! ## Makefile persistence paths (src/src/daemon/fs.rs) -/

/-- `hash_socket_path`: the byte stream fed to the blake3 hasher —
`hasher.update(pid.sock().to_string().as_bytes())` then
`hasher.update(pid.path().to_string_lossy().as_bytes())`.  The numeric
`pid.id` field is never hashed. -/
def hash_socket_path_input (pid : ProcessId) : String :=
  pid.sock.display ++ pid.path

/-- `get_makefile_path`: the per-process directory is a deterministic
function of the hasher input — the first 16 bytes of the blake3 digest,
hex-encoded, appended to the dake workspace path.  The blake3 digest is an
external crate, kept abstract as the parameter `H` (any deterministic
function). -/
def get_makefile_path (H : String → String) (pid : ProcessId) : String :=
  H (hash_socket_path_input pid)

/-- C8 (the code violates the claim): `get_makefile_path` is a hash of only
the socket and path of the `ProcessId`'s project — the numeric id is not
part of the hasher input — so two distinct processes of the same project
(ids 1 and 2) map to the same makefile directory for every choice of hash
function, not to distinct directories. -/
theorem get_makefile_path_ignores_process_id :
    ((⟨1, ⟨⟨⟨10, 0, 0, 1⟩, 1808⟩, "/proj"⟩⟩ : ProcessId) ≠
      ⟨2, ⟨⟨⟨10, 0, 0, 1⟩, 1808⟩, "/proj"⟩⟩) ∧
    hash_socket_path_input ⟨1, ⟨⟨⟨10, 0, 0, 1⟩, 1808⟩, "/proj"⟩⟩ =
      hash_socket_path_input ⟨2, ⟨⟨⟨10, 0, 0, 1⟩, 1808⟩, "/proj"⟩⟩ ∧
    ∀ H : String → String,
      get_makefile_path H ⟨1, ⟨⟨⟨10, 0, 0, 1⟩, 1808⟩, "/proj"⟩⟩ =
        get_makefile_path H ⟨2, ⟨⟨⟨10, 0, 0, 1⟩, 1808⟩, "/proj"⟩⟩ := by
  refine ⟨by decide, rfl, fun H => rfl⟩

/-! ## The rewriter's fetch stubs (src/src/makefile/generate.rs) -/

/-- `lexer::TargetLabel` (src/src/lexer/target_label.rs): socket of the
remote daemon plus optional build directory. -/
structure TargetLabel where
  sock : SocketAddr
  path : Option String
deriving DecidableEq, Repr

/-- `TargetLabel::ip`. -/
def TargetLabel.ip (l : TargetLabel) : IpAddr := l.sock.ip

/-- `root_path_set : HashMap<IpAddr, PathBuf>` as an association list. -/
abbrev RootPathSet := List (IpAddr × String)

def rootLookup : RootPathSet → IpAddr → Option String
  | [], _ => none
  | (q, w) :: t, i => if q = i then some w else rootLookup t i

def rootInsert : RootPathSet → IpAddr → String → RootPathSet
  | [], i, v => [(i, v)]
  | (q, w) :: t, i, v => if q = i then (i, v) :: t else (q, w) :: rootInsert t i v

/-- The `get_fetch_command` closure of `RemoteMakefileSet::generate`
(src/src/makefile/generate.rs, lines 59–75): the `--labeled-path` argument
comes from the label's path or the root-path map, and the command is
`format!("target/debug/dake fetch \"{}\" {} {path} \"{target}\"\n",
caller_dir.display(), label.sock)`. -/
def get_fetch_command (caller_dir : String) (root_path_set : RootPathSet)
    (label : TargetLabel) (target : String) : String :=
  let path :=
    match label.path with
    | some p => "--labeled-path " ++ p
    | none =>
        match rootLookup root_path_set label.ip with
        | some p => "--labeled-path " ++ p
        | none => ""
  "target/debug/dake fetch \"" ++ caller_dir ++ "\" " ++ label.sock.display ++ " " ++
    path ++ " \"" ++ target ++ "\"\n"

/-- The stub rule built from a fetch command:
`format!("{target}:\n\t{fetch_command}\n")`. -/
def fetch_rule (target fetch_command : String) : String :=
  target ++ ":\n\t" ++ fetch_command ++ "\n"

/-- The default rule: `format!("{target}:{command}")`. -/
def default_rule (target command : String) : String :=
  target ++ ":" ++ command

/-- Modelled from the spec (§4.2/§6; the generated stub's command as the
fetch CLI `Commands::Fetch` of src/src/main.rs expects it):
`<dake> fetch <project_path> <project_socket> <process_id> <label_socket>
[--labeled-path <p>] <target>`. -/
def spec_fetch_command (dake project_path project_socket process_id label_socket : String)
    (labeled_path : Option String) (target : String) : String :=
  dake ++ " fetch " ++ project_path ++ " " ++ project_socket ++ " " ++ process_id ++ " " ++
    label_socket ++
    (match labeled_path with
     | some p => " --labeled-path " ++ p
     | none => "") ++
    " " ++ target

/-- Modelled from the spec: the whole fetch stub
`"<target>:\n\t<dake> fetch <project_path> <project_socket> <process_id>
<label_socket> [--labeled-path <p>] <target>\n\n"`. -/
def spec_fetch_stub (dake project_path project_socket process_id label_socket : String)
    (labeled_path : Option String) (target : String) : String :=
  target ++ ":\n\t" ++
    spec_fetch_command dake project_path project_socket process_id label_socket
      labeled_path target ++ "\n\n"

/-- C6 (the code violates the claim): for a target `a.o` labeled with host
`10.0.0.2:1808` (root path `/build`), caller directory `/proj`, caller
socket `10.0.0.1:1808` and process id 1, the generated stub hard-codes the
binary `target/debug/dake` and passes only the quoted project path, the
label socket, the labeled path and the quoted target — it differs from the
spec's stub, and its command has 6 space separators (7 words) where the
spec's (and the `dake fetch` CLI's) argument order requires 8 (9 words),
omitting the project socket and the process id entirely. -/
theorem generated_fetch_stub_diverges_from_spec :
    get_fetch_command "/proj" [(⟨10, 0, 0, 2⟩, "/build")] ⟨⟨⟨10, 0, 0, 2⟩, 1808⟩, none⟩ "a.o" =
      "target/debug/dake fetch \"/proj\" 10.0.0.2:1808 --labeled-path /build \"a.o\"\n" ∧
    fetch_rule "a.o"
        (get_fetch_command "/proj" [(⟨10, 0, 0, 2⟩, "/build")]
          ⟨⟨⟨10, 0, 0, 2⟩, 1808⟩, none⟩ "a.o") ≠
      spec_fetch_stub "/usr/bin/dake" "/proj" "10.0.0.1:1808" "1" "10.0.0.2:1808"
        (some "/build") "a.o" ∧
    (get_fetch_command "/proj" [(⟨10, 0, 0, 2⟩, "/build")]
        ⟨⟨⟨10, 0, 0, 2⟩, 1808⟩, none⟩ "a.o").data.count ' ' = 6 ∧
    (spec_fetch_command "/usr/bin/dake" "/proj" "10.0.0.1:1808" "1" "10.0.0.2:1808"
        (some "/build") "a.o").data.count ' ' = 8 := by
  refine ⟨by decide, by decide, by decide, by decide⟩

/-! ## The rewriter (src/src/makefile/generate.rs, `RemoteMakefileSet::generate`)

State of the generation loop: the accumulated all-stubs text, the set of
seen ips, the makefiles under construction (primary first), and the
host-to-root-path map. -/

/-- `RemoteMakefile`: makefile text under construction plus its host socket. -/
structure RemoteMakefile where
  makefile : String
  sock : SocketAddr
deriving DecidableEq, Repr

/-- `RemoteMakefile::push_content`. -/
def RemoteMakefile.push_content (m : RemoteMakefile) (s : String) : RemoteMakefile :=
  { m with makefile := m.makefile ++ s }

/-- `RemoteMakefile::ip`. -/
def RemoteMakefile.ip (m : RemoteMakefile) : IpAddr := m.sock.ip

/-- `lexer::Directive` (src/src/lexer/directive.rs). -/
inductive Directive
  | RootDef (ip : IpAddr) (path : String)
deriving DecidableEq, Repr

/-- `lexer::Token` as declared in src/src/lexer/tokens.rs and consumed by
`RemoteMakefileSet::generate`. -/
inductive Token
  | RawText (text : String)
  | Target (target : String) (label : Option TargetLabel) (command : String)
  | Directive (d : Directive)
deriving DecidableEq, Repr

/-- `label.unwrap_or_else(|| TargetLabel::new(caller_sock, None))`. -/
def resolveLabel (caller_sock : SocketAddr) (l : Option TargetLabel) : TargetLabel :=
  l.getD ⟨caller_sock, none⟩

/-- The target tokens of a token list with their labels resolved against the
caller. -/
def targetsOf (caller_sock : SocketAddr) : List Token → List (String × TargetLabel × String)
  | [] => []
  | Token.Target t l c :: rest => (t, resolveLabel caller_sock l, c) :: targetsOf caller_sock rest
  | Token.RawText _ :: rest => targetsOf caller_sock rest
  | Token.Directive _ :: rest => targetsOf caller_sock rest

/-- Loop state of `RemoteMakefileSet::generate`. -/
structure GenState where
  full_fetch_makefile : String
  saw_ips : List IpAddr
  makefiles : List RemoteMakefile
  root_path_set : RootPathSet
deriving Repr

/-- Initial state of `generate`: the accumulated stub text is empty, the
caller ip is seen, one (primary) makefile for the caller exists, and the
root-path map is seeded with the caller directory. -/
def genInit (caller_dir : String) (caller_sock : SocketAddr) : GenState :=
  ⟨"", [caller_sock.ip], [⟨"", caller_sock⟩], [(caller_sock.ip, caller_dir)]⟩

/-- `HashSet::insert` on `saw_ips`: whether the ip was absent, plus the
updated set. -/
def sawInsert (s : List IpAddr) (x : IpAddr) : Bool × List IpAddr :=
  if x ∈ s then (false, s) else (true, s ++ [x])

/-- One iteration of `generate`'s token loop. -/
def generate_step (caller_dir : String) (caller_sock : SocketAddr)
    (s : GenState) : Token → GenState
  | Token.RawText text =>
      { s with makefiles := s.makefiles.map (fun m => m.push_content text) }
  | Token.Target target label command =>
      let lab := resolveLabel caller_sock label
      let ins := sawInsert s.saw_ips lab.ip
      let makefiles1 :=
        if ins.1 then s.makefiles ++ [⟨s.full_fetch_makefile, lab.sock⟩] else s.makefiles
      let fetch := fetch_rule target (get_fetch_command caller_dir s.root_path_set lab target)
      let defaultR := default_rule target command
      { full_fetch_makefile := s.full_fetch_makefile ++ fetch,
        saw_ips := ins.2,
        makefiles := makefiles1.map
          (fun m => m.push_content (if m.ip = lab.ip then defaultR else fetch)),
        root_path_set := s.root_path_set }
  | Token.Directive (Directive.RootDef ip path) =>
      { s with root_path_set := rootInsert s.root_path_set ip path }

/-- The token loop of `RemoteMakefileSet::generate`. -/
def genFold (caller_dir : String) (caller_sock : SocketAddr) (tokens : List Token) : GenState :=
  tokens.foldl (generate_step caller_dir caller_sock) (genInit caller_dir caller_sock)

/-- `RemoteMakefileSet`: the primary (caller) makefile text plus the remote
makefiles. -/
structure RemoteMakefileSet where
  remote_makefiles : List RemoteMakefile
  my_makefile : String
deriving Repr

/-- `RemoteMakefileSet::generate`: run the loop and split off the first
makefile as the primary one. -/
def RemoteMakefileSet.generate (tokens : List Token) (caller_dir : String)
    (caller_sock : SocketAddr) : RemoteMakefileSet :=
  match (genFold caller_dir caller_sock tokens).makefiles with
  | first :: rest => ⟨rest, first.makefile⟩
  | [] => ⟨[], ""⟩

/-- `a` occurs as a contiguous substring of `b`. -/
def strInfix (a b : String) : Prop := List.IsInfix a.data b.data

theorem strInfix_append_right {a b : String} (c : String) (h : strInfix a b) :
    strInfix a (b ++ c) := by
  unfold strInfix at h ⊢
  rw [String.data_append]
  exact h.trans (List.prefix_append b.data c.data).isInfix

theorem strInfix_suffix (a b : String) : strInfix a (b ++ a) := by
  unfold strInfix
  rw [String.data_append]
  exact (List.suffix_append b.data a.data).isInfix

theorem targetsOf_append (caller_sock : SocketAddr) (ts₁ ts₂ : List Token) :
    targetsOf caller_sock (ts₁ ++ ts₂) =
      targetsOf caller_sock ts₁ ++ targetsOf caller_sock ts₂ := by
  induction ts₁ with
  | nil => simp [targetsOf]
  | cons t rest ih =>
      cases t with
      | RawText s => simpa [targetsOf] using ih
      | Target t l c => simpa [targetsOf] using ih
      | Directive d => simpa [targetsOf] using ih

theorem push_content_ip (m : RemoteMakefile) (x : String) :
    (m.push_content x).ip = m.ip := rfl

theorem push_content_makefile (m : RemoteMakefile) (x : String) :
    (m.push_content x).makefile = m.makefile ++ x := rfl

/-- Inductive invariant of `generate`'s token loop after processing `ts`:
the seen-ip set lists exactly the makefile ips (primary first), without
duplicates; an ip is seen iff it is the caller's or labels some processed
target; every processed target's stub text is an infix of the accumulated
all-stubs text and of every makefile of a different host; every processed
target's default rule is an infix of every makefile of its own host. -/
def GenInv (caller_sock : SocketAddr) (ts : List Token) (st : GenState) : Prop :=
  st.saw_ips = st.makefiles.map RemoteMakefile.ip ∧
  (st.makefiles.map RemoteMakefile.ip).Nodup ∧
  (∀ h, h ∈ st.saw_ips ↔ h = caller_sock.ip ∨
    h ∈ (targetsOf caller_sock ts).map (fun x => x.2.1.ip)) ∧
  (∀ x ∈ targetsOf caller_sock ts, ∃ fc,
     strInfix (fetch_rule x.1 fc) st.full_fetch_makefile ∧
     ∀ m ∈ st.makefiles, m.ip ≠ x.2.1.ip → strInfix (fetch_rule x.1 fc) m.makefile) ∧
  (∀ x ∈ targetsOf caller_sock ts, ∀ m ∈ st.makefiles,
     m.ip = x.2.1.ip → strInfix (default_rule x.1 x.2.2) m.makefile)

theorem genInv_init (caller_dir : String) (caller_sock : SocketAddr) :
    GenInv caller_sock [] (genInit caller_dir caller_sock) := by
  refine ⟨rfl, by simp [genInit, RemoteMakefile.ip], ?_, ?_, ?_⟩
  · intro h
    simp [genInit, targetsOf]
  · intro x hx
    simp [targetsOf] at hx
  · intro x hx
    simp [targetsOf] at hx

theorem generate_step_target_eq (caller_dir : String) (caller_sock : SocketAddr)
    (st : GenState) (tgt : String) (l : Option TargetLabel) (cmd : String) :
    generate_step caller_dir caller_sock st (Token.Target tgt l cmd) =
      { full_fetch_makefile := st.full_fetch_makefile ++
          fetch_rule tgt (get_fetch_command caller_dir st.root_path_set
            (resolveLabel caller_sock l) tgt),
        saw_ips := (sawInsert st.saw_ips (resolveLabel caller_sock l).ip).2,
        makefiles :=
          (if (sawInsert st.saw_ips (resolveLabel caller_sock l).ip).1 then
            st.makefiles ++ [⟨st.full_fetch_makefile, (resolveLabel caller_sock l).sock⟩]
          else st.makefiles).map
            (fun m => m.push_content
              (if m.ip = (resolveLabel caller_sock l).ip then default_rule tgt cmd
               else fetch_rule tgt (get_fetch_command caller_dir st.root_path_set
                 (resolveLabel caller_sock l) tgt))),
        root_path_set := st.root_path_set } := rfl

theorem map_ip_push (l : List RemoteMakefile) (f : RemoteMakefile → String) :
    (l.map (fun m => m.push_content (f m))).map RemoteMakefile.ip =
      l.map RemoteMakefile.ip := by
  rw [List.map_map]
  rfl

theorem genInv_step_target (caller_dir : String) (caller_sock : SocketAddr) (ts : List Token)
    (st : GenState) (hinv : GenInv caller_sock ts st) (tgt : String)
    (l : Option TargetLabel) (cmd : String) :
    GenInv caller_sock (ts ++ [Token.Target tgt l cmd])
      (generate_step caller_dir caller_sock st (Token.Target tgt l cmd)) := by
  obtain ⟨h1, h2, h4, h5, h6⟩ := hinv
  have hts : targetsOf caller_sock (ts ++ [Token.Target tgt l cmd]) =
      targetsOf caller_sock ts ++ [(tgt, resolveLabel caller_sock l, cmd)] := by
    rw [targetsOf_append]; simp [targetsOf]
  rw [generate_step_target_eq]
  by_cases hseen : (resolveLabel caller_sock l).ip ∈ st.saw_ips
  · -- the label's host was already seen: no new makefile is created
    have hins : sawInsert st.saw_ips (resolveLabel caller_sock l).ip =
        (false, st.saw_ips) := by
      simp [sawInsert, hseen]
    rw [hins]
    simp only [Bool.false_eq_true, if_false]
    refine ⟨?_, ?_, ?_, ?_, ?_⟩
    · dsimp only
      rw [map_ip_push]; exact h1
    · dsimp only
      rw [map_ip_push]; exact h2
    · intro h
      dsimp only
      rw [hts]
      simp only [List.map_append, List.map_cons, List.map_nil, List.mem_append,
        List.mem_singleton]
      constructor
      · intro hh
        rcases (h4 h).1 hh with hc | ho
        · exact Or.inl hc
        · exact Or.inr (Or.inl ho)
      · intro hh
        rcases hh with hc | ho | he
        · exact (h4 h).2 (Or.inl hc)
        · exact (h4 h).2 (Or.inr ho)
        · rw [he]; exact hseen
    · intro x hx
      rw [hts] at hx
      rcases List.mem_append.1 hx with hx | hx
      · obtain ⟨fc, hfull, hmk⟩ := h5 x hx
        refine ⟨fc, strInfix_append_right _ hfull, ?_⟩
        intro m' hm'
        dsimp only at hm'
        obtain ⟨m, hm, rfl⟩ := List.mem_map.1 hm'
        rw [push_content_ip]
        intro hne
        rw [push_content_makefile]
        exact strInfix_append_right _ (hmk m hm hne)
      · rw [List.mem_singleton] at hx
        subst hx
        dsimp only
        refine ⟨get_fetch_command caller_dir st.root_path_set
          (resolveLabel caller_sock l) tgt, strInfix_suffix _ _, ?_⟩
        intro m' hm'
        obtain ⟨m, hm, rfl⟩ := List.mem_map.1 hm'
        rw [push_content_ip]
        intro hne
        rw [push_content_makefile, if_neg hne]
        exact strInfix_suffix _ _
    · intro x hx
      rw [hts] at hx
      rcases List.mem_append.1 hx with hx | hx
      · intro m' hm'
        dsimp only at hm'
        obtain ⟨m, hm, rfl⟩ := List.mem_map.1 hm'
        rw [push_content_ip, push_content_makefile]
        intro heq
        exact strInfix_append_right _ (h6 x hx m hm heq)
      · rw [List.mem_singleton] at hx
        subst hx
        dsimp only
        intro m' hm'
        obtain ⟨m, hm, rfl⟩ := List.mem_map.1 hm'
        rw [push_content_ip, push_content_makefile]
        intro heq
        rw [if_pos heq]
        exact strInfix_suffix _ _
  · -- unseen host: a new makefile initialised with the stub history is pushed
    have hins : sawInsert st.saw_ips (resolveLabel caller_sock l).ip =
        (true, st.saw_ips ++ [(resolveLabel caller_sock l).ip]) := by
      simp [sawInsert, hseen]
    rw [hins]
    simp only [if_true]
    have hnotip : (resolveLabel caller_sock l).ip ∉
        st.makefiles.map RemoteMakefile.ip := h1 ▸ hseen
    have hipbase : RemoteMakefile.ip
        ⟨st.full_fetch_makefile, (resolveLabel caller_sock l).sock⟩ =
        (resolveLabel caller_sock l).ip := rfl
    refine ⟨?_, ?_, ?_, ?_, ?_⟩
    · dsimp only
      rw [map_ip_push, List.map_append, h1]
      rfl
    · dsimp only
      rw [map_ip_push, List.map_append]
      simp only [List.map_cons, List.map_nil, hipbase]
      simp [List.nodup_append, h2, hnotip]
    · intro h
      dsimp only
      rw [hts]
      simp only [List.map_append, List.map_cons, List.map_nil, List.mem_append,
        List.mem_singleton]
      constructor
      · intro hh
        rcases hh with hh | hh
        · rcases (h4 h).1 hh with hc | ho
          · exact Or.inl hc
          · exact Or.inr (Or.inl ho)
        · exact Or.inr (Or.inr hh)
      · intro hh
        rcases hh with hc | ho | he
        · exact Or.inl ((h4 h).2 (Or.inl hc))
        · exact Or.inl ((h4 h).2 (Or.inr ho))
        · exact Or.inr he
    · intro x hx
      rw [hts] at hx
      rcases List.mem_append.1 hx with hx | hx
      · obtain ⟨fc, hfull, hmk⟩ := h5 x hx
        refine ⟨fc, strInfix_append_right _ hfull, ?_⟩
        intro m' hm'
        dsimp only at hm'
        obtain ⟨m, hm, rfl⟩ := List.mem_map.1 hm'
        rw [push_content_ip]
        intro hne
        rw [push_content_makefile]
        rcases List.mem_append.1 hm with hmo | hmb
        · exact strInfix_append_right _ (hmk m hmo hne)
        · rw [List.mem_singleton] at hmb
          subst hmb
          exact strInfix_append_right _ hfull
      · rw [List.mem_singleton] at hx
        subst hx
        dsimp only
        refine ⟨get_fetch_command caller_dir st.root_path_set
          (resolveLabel caller_sock l) tgt, strInfix_suffix _ _, ?_⟩
        intro m' hm'
        obtain ⟨m, hm, rfl⟩ := List.mem_map.1 hm'
        rw [push_content_ip]
        intro hne
        rw [push_content_makefile, if_neg hne]
        exact strInfix_suffix _ _
    · intro x hx
      rw [hts] at hx
      rcases List.mem_append.1 hx with hx | hx
      · intro m' hm'
        dsimp only at hm'
        obtain ⟨m, hm, rfl⟩ := List.mem_map.1 hm'
        rw [push_content_ip, push_content_makefile]
        intro heq
        rcases List.mem_append.1 hm with hmo | hmb
        · exact strInfix_append_right _ (h6 x hx m hmo heq)
        · exfalso
          rw [List.mem_singleton] at hmb
          subst hmb
          rw [hipbase] at heq
          have hxin : x.2.1.ip ∈ st.saw_ips := by
            refine (h4 x.2.1.ip).2 (Or.inr ?_)
            exact List.mem_map_of_mem (fun y => y.2.1.ip) hx
          rw [← heq] at hxin
          exact hseen hxin
      · rw [List.mem_singleton] at hx
        subst hx
        dsimp only
        intro m' hm'
        obtain ⟨m, hm, rfl⟩ := List.mem_map.1 hm'
        rw [push_content_ip, push_content_makefile]
        intro heq
        rw [if_pos heq]
        exact strInfix_suffix _ _

theorem genInv_step (caller_dir : String) (caller_sock : SocketAddr) (ts : List Token)
    (st : GenState) (hinv : GenInv caller_sock ts st) (t : Token) :
    GenInv caller_sock (ts ++ [t]) (generate_step caller_dir caller_sock st t) := by
  obtain ⟨h1, h2, h4, h5, h6⟩ := hinv
  cases t with
  | RawText text =>
      have hts : targetsOf caller_sock (ts ++ [Token.RawText text]) =
          targetsOf caller_sock ts := by
        rw [targetsOf_append]; simp [targetsOf]
      have hstep : generate_step caller_dir caller_sock st (Token.RawText text) =
          { st with makefiles := st.makefiles.map (fun m => m.push_content text) } := rfl
      rw [hstep]
      have hips : ((st.makefiles.map (fun m => m.push_content text)).map
          RemoteMakefile.ip) = st.makefiles.map RemoteMakefile.ip := by
        rw [List.map_map]; rfl
      refine ⟨?_, ?_, ?_, ?_, ?_⟩
      · dsimp only
        rw [hips]; exact h1
      · dsimp only
        rw [hips]; exact h2
      · intro h
        dsimp only
        rw [hts]; exact h4 h
      · intro x hx
        rw [hts] at hx
        obtain ⟨fc, hfull, hmk⟩ := h5 x hx
        refine ⟨fc, hfull, ?_⟩
        intro m' hm'
        dsimp only at hm'
        obtain ⟨m, hm, rfl⟩ := List.mem_map.1 hm'
        rw [push_content_ip]
        intro hne
        rw [push_content_makefile]
        exact strInfix_append_right text (hmk m hm hne)
      · intro x hx
        rw [hts] at hx
        intro m' hm'
        dsimp only at hm'
        obtain ⟨m, hm, rfl⟩ := List.mem_map.1 hm'
        rw [push_content_ip, push_content_makefile]
        intro heq
        exact strInfix_append_right text (h6 x hx m hm heq)
  | Directive d =>
      obtain ⟨ip, path⟩ := d
      have hts : targetsOf caller_sock (ts ++ [Token.Directive (Directive.RootDef ip path)]) =
          targetsOf caller_sock ts := by
        rw [targetsOf_append]; simp [targetsOf]
      have hstep : generate_step caller_dir caller_sock st
          (Token.Directive (Directive.RootDef ip path)) =
          { st with root_path_set := rootInsert st.root_path_set ip path } := rfl
      rw [hstep, GenInv, hts]
      exact ⟨h1, h2, h4, h5, h6⟩
  | Target tgt l cmd =>
      exact genInv_step_target caller_dir caller_sock ts st ⟨h1, h2, h4, h5, h6⟩ tgt l cmd

theorem genInv_fold (caller_dir : String) (caller_sock : SocketAddr) (ts : List Token) :
    GenInv caller_sock ts (genFold caller_dir caller_sock ts) := by
  induction ts using List.reverseRecOn with
  | nil => exact genInv_init caller_dir caller_sock
  | append_singleton ts t ih =>
      rw [genFold, List.foldl_append]
      exact genInv_step caller_dir caller_sock ts _ ih t

/-- C7: for every token sequence, `RemoteMakefileSet::generate` builds
exactly one makefile per distinct host observed (the makefile ips are
duplicate-free, and an ip has a makefile iff it is the caller's or labels
some target token); every target's default rule occurs in the makefile of
its own host — so two targets labeled with the same host contribute both
their default rules to that host's single makefile; and every target's
fetch stub occurs in every makefile of a different host — in particular a
host first seen later in the token stream, whose makefile starts from the
accumulated stub history, contains a stub rule for every earlier off-host
target.  The emitted set is the first (caller) makefile as primary plus the
rest. -/
theorem generate_one_makefile_per_host (caller_dir : String) (caller_sock : SocketAddr)
    (tokens : List Token) :
    ((genFold caller_dir caller_sock tokens).makefiles.map RemoteMakefile.ip).Nodup ∧
    (∀ h, h ∈ (genFold caller_dir caller_sock tokens).makefiles.map RemoteMakefile.ip ↔
      h = caller_sock.ip ∨
      h ∈ (targetsOf caller_sock tokens).map (fun x => x.2.1.ip)) ∧
    (∀ x ∈ targetsOf caller_sock tokens,
      ∀ m ∈ (genFold caller_dir caller_sock tokens).makefiles,
        m.ip = x.2.1.ip → strInfix (default_rule x.1 x.2.2) m.makefile) ∧
    (∀ x ∈ targetsOf caller_sock tokens, ∃ fc,
      ∀ m ∈ (genFold caller_dir caller_sock tokens).makefiles,
        m.ip ≠ x.2.1.ip → strInfix (fetch_rule x.1 fc) m.makefile) ∧
    (∃ first rest, (genFold caller_dir caller_sock tokens).makefiles = first :: rest ∧
      RemoteMakefileSet.generate tokens caller_dir caller_sock = ⟨rest, first.makefile⟩) := by
  obtain ⟨h1, h2, h4, h5, h6⟩ := genInv_fold caller_dir caller_sock tokens
  refine ⟨h2, ?_, h6, ?_, ?_⟩
  · intro h
    rw [← h1]
    exact h4 h
  · intro x hx
    obtain ⟨fc, _, hmk⟩ := h5 x hx
    exact ⟨fc, hmk⟩
  · have hne : (genFold caller_dir caller_sock tokens).makefiles ≠ [] := by
      intro he
      have hc := (h4 caller_sock.ip).2 (Or.inl rfl)
      rw [h1, he] at hc
      simp at hc
    obtain ⟨first, rest, hfr⟩ := List.exists_cons_of_ne_nil hne
    refine ⟨first, rest, hfr, ?_⟩
    simp only [RemoteMakefileSet.generate, hfr]

/-! ## The tokenizer (src/src/lexer/lexer.rs) and directives
(src/src/lexer/directive.rs)

`lex` works in two phases: `generate_lines` strips `#`-comments, handles
backslash continuations and classifies each nonempty trimmed line as
`RawLine` or `ColonLine`; `lines_to_tokens` gathers raw lines and parses
`name(ip)` parentheses on colon lines.  Loops are embedded with an explicit
fuel bounded by the input length (every iteration consumes at least one
element), keeping every definition structurally recursive and evaluable. -/

namespace lexer

/-- `tokens::Line` — the variants `lex` constructs (`tokens.rs` additionally
declares a `Directive(String)` variant that `lex` never constructs nor
consumes). -/
inductive Line
  | RawLine (s : String)
  | ColonLine (left right : String)
deriving DecidableEq, Repr

/-- `Token` as `lex` constructs it: raw text and targets carrying an
optional ip string parsed from `name(ip)` parentheses; the `Directive`
variant is declared (tokens.rs) but `lex` never produces it. -/
inductive Token
  | RawText (text : String)
  | Target (name : String) (ip : Option String) (command : String)
  | Directive (d : Dake.Directive)
deriving DecidableEq, Repr

/-- `lexer::Makefile`: raw text, lines, tokens. -/
structure Makefile where
  raw : String
  lines : List Line
  tokens : List Token
deriving DecidableEq, Repr

/-- Rust whitespace for `trim` / `split_whitespace` (ASCII cases). -/
def isWS (c : Char) : Bool :=
  c == ' ' || c == '\t' || c == '\n' || c == '\r'

/-- Rust `str::trim`. -/
def rustTrim (s : String) : String :=
  String.mk (((s.data.dropWhile isWS).reverse.dropWhile isWS).reverse)

/-- Rust `str::lines`: pieces between `\n`, the trailing empty piece
dropped. -/
def splitLinesAux : List Char → List Char → List String
  | [], acc => [String.mk acc.reverse]
  | c :: rest, acc =>
      if c = '\n' then String.mk acc.reverse :: splitLinesAux rest []
      else splitLinesAux rest (c :: acc)

def rustLines (s : String) : List String :=
  let parts := splitLinesAux s.data []
  if parts.getLast? = some "" then parts.dropLast else parts

/-- `line.split_once('#')`, keeping the part before the first `#` (the
whole line when there is none): everything from `#` on is discarded. -/
def stripComment (line : String) : String :=
  String.mk (line.data.takeWhile (fun c => c ≠ '#'))

/-- `s.split_once(c)`: characters before and after the first occurrence. -/
def splitOnceChar (c : Char) : List Char → Option (List Char × List Char)
  | [] => none
  | x :: rest =>
      if x = c then some ([], rest)
      else (splitOnceChar c rest).map (fun p => (x :: p.1, p.2))

/-- The inner `push_line` of `generate_lines`: trim; skip when empty; a
line with a `:` becomes `ColonLine(left, right)`, otherwise `RawLine`. -/
def push_line (lines : List Line) (line : String) : List Line :=
  let line := rustTrim line
  if line = "" then lines
  else
    match splitOnceChar ':' line.data with
    | some lr => lines ++ [Line.ColonLine (String.mk lr.1) (String.mk lr.2)]
    | none => lines ++ [Line.RawLine line]

/-- The backslash-continuation `while` of `generate_lines`: while the line
ends with `\`, pop it and append the next input line (consuming it); when
the input runs out mid-continuation the line is pushed inside the loop and
then again after it (the `Bool` records this duplicate push). -/
def contLoop : String → List String → String × List String × Bool
  | line, [] =>
      if line.data.getLast? = some '\\' then (line, [], true) else (line, [], false)
  | line, next :: rest =>
      if line.data.getLast? = some '\\' then
        contLoop (String.mk line.data.dropLast ++ next) rest
      else (line, next :: rest, false)

/-- `generate_lines`'s outer loop over input lines, fuelled by the input
length (each iteration consumes at least the current line). -/
def generate_lines_go : Nat → List String → List Line
  | 0, _ => []
  | _ + 1, [] => []
  | fuel + 1, l :: rest =>
      let r := contLoop (stripComment l) rest
      (if r.2.2 then push_line (push_line [] r.1) r.1 else push_line [] r.1) ++
        generate_lines_go fuel r.2.1

def generate_lines (ls : List String) : List Line :=
  generate_lines_go (ls.length + 1) ls

/-- The raw-line gathering at the top of `lines_to_tokens`' loop:
concatenate consecutive `RawLine`s. -/
def gatherRaw : List Line → String × List Line
  | Line.RawLine l :: rest =>
      let r := gatherRaw rest
      (l ++ r.1, r.2)
  | ls => ("", ls)

/-- The `while let Some(open) = rest.find('(')` loop parsing `name(ip)`
groups of a target's left-hand side, fuelled by the remaining length (each
iteration consumes past the closing parenthesis). -/
def parenLoop : Nat → List Char → Option (String × String) → Option (String × String)
  | 0, _, acc => acc
  | fuel + 1, rest, acc =>
      match rest.findIdx? (fun c => c = '(') with
      | none => acc
      | some openIdx =>
          match (rest.drop openIdx).findIdx? (fun c => c = ')') with
          | none => acc
          | some closeIdx =>
              let prefixStr := rustTrim (String.mk (rest.take openIdx))
              let inside := rustTrim (String.mk ((rest.drop (openIdx + 1)).take (closeIdx - 1)))
              let acc' := if prefixStr ≠ "" then some (inside, prefixStr) else acc
              parenLoop fuel (rest.drop (openIdx + closeIdx + 1)) acc'

/-- `lines_to_tokens`' main loop, fuelled by the number of lines. -/
def lines_to_tokens_go : Nat → List Line → List Token
  | 0, _ => []
  | fuel + 1, ls =>
      let g := gatherRaw ls
      let head := if g.1 ≠ "" then [Token.RawText g.1] else []
      match g.2 with
      | [] => head
      | Line.ColonLine left right :: rest =>
          let rr := match rest with
            | Line.RawLine extra :: r2 => (right ++ extra, r2)
            | _ => (right, rest)
          let tok := match parenLoop (rustTrim left).data.length (rustTrim left).data none with
            | some ipName => Token.Target ipName.2 (some ipName.1) rr.1
            | none => Token.Target left none rr.1
          head ++ tok :: lines_to_tokens_go fuel rr.2
      | Line.RawLine _ :: rest => head ++ lines_to_tokens_go fuel rest

def lines_to_tokens (ls : List Line) : List Token :=
  lines_to_tokens_go (ls.length + 1) ls

/-- `lex` (src/src/lexer/lexer.rs): generate lines, then tokens, and return
`Makefile::new(raw, lines, tokens)`. -/
def lex (s : String) : Makefile :=
  let lines := generate_lines (rustLines s)
  ⟨s, lines, lines_to_tokens lines⟩

end lexer

/-- Digits-only natural number parser (for the ip octets of
`IpAddr::from_str`). -/
def parseNat (l : List Char) : Option Nat :=
  if l = [] then none
  else
    l.foldl
      (fun acc c =>
        match acc with
        | none => none
        | some n =>
            if 48 ≤ c.toNat ∧ c.toNat ≤ 57 then some (n * 10 + (c.toNat - 48)) else none)
      (some 0)

/-- Split on a separator character, keeping empty pieces. -/
def splitCharAux (sep : Char) : List Char → List Char → List String
  | [], acc => [String.mk acc.reverse]
  | c :: rest, acc =>
      if c = sep then String.mk acc.reverse :: splitCharAux sep rest []
      else splitCharAux sep rest (c :: acc)

/-- `IpAddr::from_str`, V4 dotted-quad case: four octets 0–255. -/
def parseIpAddr (s : String) : Option IpAddr :=
  match splitCharAux '.' s.data [] with
  | [a, b, c, d] =>
      match parseNat a.data, parseNat b.data, parseNat c.data, parseNat d.data with
      | some x, some y, some z, some w =>
          if x ≤ 255 ∧ y ≤ 255 ∧ z ≤ 255 ∧ w ≤ 255 then some ⟨x, y, z, w⟩ else none
      | _, _, _, _ => none
  | _ => none

/-- Rust `str::split_whitespace`. -/
def splitWSAux : List Char → List Char → List String
  | [], acc => if acc = [] then [] else [String.mk acc.reverse]
  | c :: rest, acc =>
      if lexer.isWS c then
        (if acc = [] then splitWSAux rest [] else String.mk acc.reverse :: splitWSAux rest [])
      else splitWSAux rest (c :: acc)

/-- `Directive::from_str` (src/src/lexer/directive.rs): split the directive
body on whitespace and match `["ROOT_DEF", ip, "=", path]`. -/
def Directive.from_str (s : String) : Option Directive :=
  match splitWSAux s.data [] with
  | ["ROOT_DEF", ip, "=", path] => (parseIpAddr ip).map (fun i => Directive.RootDef i path)
  | _ => none

theorem rootLookup_rootInsert (r : RootPathSet) (i : IpAddr) (p : String) :
    rootLookup (rootInsert r i p) i = some p := by
  induction r with
  | nil => simp [rootInsert, rootLookup]
  | cons h t ih =>
      obtain ⟨q, w⟩ := h
      by_cases hq : q = i
      · simp [rootInsert, hq, rootLookup]
      · simp [rootInsert, hq, rootLookup, ih]

/-- C9 (the code violates the claim's tokenizer half): feeding the makefile
text `#!ROOT_DEF 10.0.0.2 = /build\n` to `lex` produces no line and no
token at all — `generate_lines` strips everything from the first `#`
onward, so the directive line is discarded as an ordinary comment and no
`RootDef` directive token is ever produced — although `Directive::from_str`
does parse the directive body, `lex` parses an ordinary rule normally, and
the rewriter half of the claim holds: `generate` processes a `RootDef`
token by updating the host-to-root-path map, whose lookup then yields the
declared path. -/
theorem root_def_line_discarded_by_lexer :
    (lexer.lex "#!ROOT_DEF 10.0.0.2 = /build\n").lines = [] ∧
    (lexer.lex "#!ROOT_DEF 10.0.0.2 = /build\n").tokens = [] ∧
    Directive.from_str "ROOT_DEF 10.0.0.2 = /build" =
      some (Directive.RootDef ⟨10, 0, 0, 2⟩ "/build") ∧
    (lexer.lex "all:\n\techo hi\n").tokens = [lexer.Token.Target "all" none "echo hi"] ∧
    (∀ (caller_dir : String) (caller_sock : SocketAddr) (st : GenState) (i : IpAddr)
       (p : String),
      (generate_step caller_dir caller_sock st
          (Token.Directive (Directive.RootDef i p))).root_path_set =
        rootInsert st.root_path_set i p) ∧
    (∀ (r : RootPathSet) (i : IpAddr) (p : String),
      rootLookup (rootInsert r i p) i = some p) := by
  refine ⟨by decide, by decide, by decide, by decide, ?_, ?_⟩
  · intro caller_dir caller_sock st i p
    rfl
  · intro r i p
    exact rootLookup_rootInsert r i p
